import Mathlib

/-!
Shallow embedding of `src/q3/event_logger.py` (the reassembly/event-logger
core) and proofs about it.

Modelling conventions:
* Python `int` is `Int`; the statistics counters are `Nat` (they only ever
  increase from 0).
* Python `set[int]` is a duplicate-free `List Int` built with `addSeq`
  (membership-guarded cons); only membership is ever observed.
* The append-only log file is the `log` field: the list of lines written, in
  order.  A line keeps the written sequence, the timestamp and payload
  fields of the packet (opaque here: their rendering never influences
  control flow), and the status tag.
* Calls to `source.request_retransmit` are recorded in order in the
  `requests` field.
* `source.verify_checksum` is external; each delivered packet is paired with
  the Bool the source returns for it.
* The Python `list.sort(key=...)` is a stable sort by sequence
  (`sortBuffer`); `while` loops become structural recursion on a fuel that
  is always sufficient (each iteration removes one buffered packet).
* `EventLogger._should_flush` line 125 reads `self.expected_seq`, an
  attribute that is never assigned anywhere in the class (the state variable
  is `expected_sequence`), so evaluating the generator inside `any(...)`
  raises `AttributeError` as soon as the buffer is non-empty; with an empty
  buffer the generator body is never evaluated and `any` returns `False`.
  Fallible code is embedded with `Except String`.
-/

namespace EventLog

/-- Output status tag of a written log line. -/
inductive Status where
  | OK
  | LATE
  | RETRANSMIT
deriving DecidableEq, Repr

/-- A packet delivered by the message source.  `timestamp` and `payload`
carry the already-rendered text forms (a fixed 6-decimal float and lowercase
hex); the engine never inspects them. -/
structure Packet where
  sequence : Int
  timestamp : String
  payload : String
deriving DecidableEq, Repr

/-- One line of the append-only log file. -/
structure LogEntry where
  sequence : Int
  timestamp : String
  payload : String
  status : Status
deriving DecidableEq, Repr

/-- `LoggerStats` dataclass. -/
structure LoggerStats where
  packets_received : Nat := 0
  packets_written : Nat := 0
  duplicates_discarded : Nat := 0
  corrupted_packets : Nat := 0
  retransmit_requests : Nat := 0
  retransmits_received : Nat := 0
  inversions : Nat := 0
  gaps : Nat := 0
  buffer_flushes : Nat := 0
  final_buffer_size : Nat := 0
deriving DecidableEq, Repr

/-- The mutable state of `EventLogger`, plus the two externally observable
histories: the lines appended to the log file (`log`) and the arguments of
the `request_retransmit` calls made so far (`requests`). -/
structure LoggerState where
  buffer_size : Nat
  buffer : List Packet
  seen_sequences : List Int
  last_written_seq : Int
  pending_retransmits : List Int
  expected_sequence : Int
  retransmitted_seqs : List Int
  gap_wait_cycles : Nat
  gap_wait_limit : Nat
  gap_skip_limit : Nat
  stats : LoggerStats
  log : List LogEntry
  requests : List Int
deriving DecidableEq, Repr

/-- Python `set.add`: insert if absent (membership is all that is observed). -/
def addSeq (q : Int) (l : List Int) : List Int :=
  if q ∈ l then l else q :: l

/-- `EventLogger.__init__` state (before `_load_existing_log`). -/
def initState (bufferSize : Nat) : LoggerState where
  buffer_size := bufferSize
  buffer := []
  seen_sequences := []
  last_written_seq := -1
  pending_retransmits := []
  expected_sequence := 0
  retransmitted_seqs := []
  gap_wait_cycles := 0
  gap_wait_limit := max 6 (bufferSize / 2)
  gap_skip_limit := max 1 (bufferSize / 10)
  stats := {}
  log := []
  requests := []

/-- Lines 230-233: the write is out of strict physical order. -/
def outOfOrder (s : LoggerState) (seq : Int) : Bool :=
  s.last_written_seq != -1 && seq != s.last_written_seq + 1

/-- Lines 235-236: an `OK` proposal is upgraded to `LATE` when out of
order; `LATE` and `RETRANSMIT` proposals are kept. -/
def resolveStatus (st : Status) (ooo : Bool) : Status :=
  match st, ooo with
  | Status.OK, true => Status.LATE
  | _, _ => st

/-- Lines 238-241: inversion counting on the final status. -/
def inversionDelta (st : Status) (ooo : Bool) : Nat :=
  match st, ooo with
  | Status.LATE, _ => 1
  | Status.RETRANSMIT, true => 1
  | _, _ => 0

/-- `EventLogger._write_packet` (lines 225-248). -/
def writePacket (s : LoggerState) (p : Packet) (st : Status) : LoggerState :=
  let ooo := outOfOrder s p.sequence
  let st2 := resolveStatus st ooo
  { s with
    stats := { s.stats with
      inversions := s.stats.inversions + inversionDelta st2 ooo
      packets_written := s.stats.packets_written + 1 }
    log := s.log ++ [{ sequence := p.sequence, timestamp := p.timestamp,
                       payload := p.payload, status := st2 }]
    last_written_seq := p.sequence }

/-- Stable insertion by sequence: `p` goes before the first element whose
sequence is not strictly smaller. -/
def insertBySeq (p : Packet) : List Packet → List Packet
  | [] => [p]
  | q :: rest =>
    if q.sequence < p.sequence then q :: insertBySeq p rest
    else p :: q :: rest

/-- Python `buffer.sort(key=lambda x: x.sequence)`: a stable sort by
sequence. -/
def sortBuffer (l : List Packet) : List Packet :=
  l.foldr insertBySeq []

/-- Lines 145-149 / 183-187: locate and remove the first buffered packet
with the given sequence. -/
def popSeq (t : Int) : List Packet → Option (Packet × List Packet)
  | [] => none
  | p :: rest =>
    if p.sequence = t then some (p, rest)
    else
      match popSeq t rest with
      | none => none
      | some (q, r) => some (q, p :: r)

/-- Lines 154-157 / 192-195: status proposed for a drained packet. -/
def drainStatus (retr : List Int) (p : Packet) : Status :=
  if p.sequence ∈ retr then Status.RETRANSMIT else Status.OK

/-- Lines 205-208 / 217-220: status proposed for an evicted packet. -/
def evictStatus (retr : List Int) (p : Packet) : Status :=
  if p.sequence ∈ retr then Status.RETRANSMIT else Status.LATE

/-- The contiguous drain `while True` loop (lines 144-159): repeatedly pop
the packet whose sequence equals `expected_sequence`, write it, advance the
cursor.  One iteration removes one buffered packet, so any fuel of at
least `buffer.length` computes the exact loop behavior, independently of
the fuel chosen (`drainGo_fuel_eq` below). -/
def drainGo : Nat → LoggerState → LoggerState
  | 0, s => s
  | fuel + 1, s =>
    match popSeq s.expected_sequence s.buffer with
    | none => s
    | some (p, rest) =>
      let s1 := writePacket { s with buffer := rest } p (drainStatus s.retransmitted_seqs p)
      drainGo fuel { s1 with expected_sequence := s1.expected_sequence + 1 }

def drainLoop (s : LoggerState) : LoggerState := drainGo s.buffer.length s

/-- Lines 163-170: after the drain, if no buffered packet matches
`expected_sequence` and it is not already pending, request retransmission. -/
def missingHead (s : LoggerState) : LoggerState :=
  if s.buffer.any (fun q => q.sequence == s.expected_sequence) then s
  else if s.expected_sequence ∈ s.pending_retransmits then s
  else
    { s with
      requests := s.requests ++ [s.expected_sequence]
      pending_retransmits := addSeq s.expected_sequence s.pending_retransmits
      retransmitted_seqs := addSeq s.expected_sequence s.retransmitted_seqs
      stats := { s.stats with retransmit_requests := s.stats.retransmit_requests + 1 } }

/-- The gap-skip `while` loop (lines 172-200), fuel = remaining
`gap_skip_limit - skip_count`.  Each iteration sorts, looks at the smallest
buffered sequence, and on a genuine gap advances the cursor and re-runs the
contiguous drain. -/
def gapSkipGo : Nat → LoggerState → LoggerState
  | 0, s => s
  | fuel + 1, s =>
    match sortBuffer s.buffer with
    | [] => s
    | q :: qs =>
      if s.expected_sequence < q.sequence then
        let s1 := { s with
          buffer := q :: qs
          expected_sequence := s.expected_sequence + 1
          stats := { s.stats with gaps := s.stats.gaps + 1 } }
        gapSkipGo fuel (drainLoop s1)
      else s

def gapSkipLoop (s : LoggerState) : LoggerState := gapSkipGo s.gap_skip_limit s

/-- The bound-enforcement `while` loop (lines 202-209): while the buffer
exceeds `buffer_size`, evict the smallest-sequence packet and write it.
Each iteration removes one packet, so `buffer.length` fuel computes the
exact loop behavior (`boundGo_fuel_eq` below). -/
def boundGo : Nat → LoggerState → LoggerState
  | 0, s => s
  | fuel + 1, s =>
    if s.buffer.length ≤ s.buffer_size then s
    else
      match sortBuffer s.buffer with
      | [] => s
      | p :: rest =>
        boundGo fuel (writePacket { s with buffer := rest } p (evictStatus s.retransmitted_seqs p))

def boundLoop (s : LoggerState) : LoggerState := boundGo s.buffer.length s

/-- Line 141-142 of `_flush_buffer`: count the flush and sort the buffer. -/
def preFlush (s : LoggerState) : LoggerState :=
  { s with
    buffer := sortBuffer s.buffer
    stats := { s.stats with buffer_flushes := s.stats.buffer_flushes + 1 } }

/-- `EventLogger._flush_buffer` (lines 136-209). -/
def flushBuffer (s : LoggerState) : LoggerState :=
  if s.buffer = [] then s
  else
    let s2 := drainLoop (preFlush s)
    let s3 := { s2 with buffer := sortBuffer s2.buffer }
    boundLoop (gapSkipLoop (missingHead s3))

/-- Lines 215-221: pop the buffer front-to-back (it was sorted once, and
popping index 0 keeps it sorted) and write each packet as `LATE`, or
`RETRANSMIT` if its sequence was ever retransmit-requested.  The traversed
list is always the current buffer. -/
def evictList : LoggerState → List Packet → LoggerState
  | s, [] => s
  | s, p :: rest =>
    evictList (writePacket { s with buffer := rest } p (evictStatus s.retransmitted_seqs p)) rest

/-- `EventLogger._finalize` (lines 211-223). -/
def finalizeLogger (s : LoggerState) : LoggerState :=
  let s1 := flushBuffer s
  let s2 := evictList { s1 with buffer := sortBuffer s1.buffer } (sortBuffer s1.buffer)
  { s2 with stats := { s2.stats with final_buffer_size := 0 } }

/-- `EventLogger._handle_packet` (lines 91-118); `checksumOk` is the value
returned by the external `source.verify_checksum`. -/
def handlePacket (s : LoggerState) (p : Packet) (checksumOk : Bool) : LoggerState :=
  if checksumOk then
    if p.sequence ∈ s.seen_sequences then
      { s with stats := { s.stats with
          duplicates_discarded := s.stats.duplicates_discarded + 1 } }
    else
      let s1 := { s with seen_sequences := addSeq p.sequence s.seen_sequences }
      let s2 :=
        if p.sequence ∈ s1.retransmitted_seqs then
          { s1 with stats := { s1.stats with
              retransmits_received := s1.stats.retransmits_received + 1 } }
        else s1
      { s2 with buffer := s2.buffer ++ [p] }
  else
    let s1 := { s with stats := { s.stats with
        corrupted_packets := s.stats.corrupted_packets + 1 } }
    if p.sequence ∈ s1.pending_retransmits then s1
    else
      { s1 with
        requests := s1.requests ++ [p.sequence]
        pending_retransmits := addSeq p.sequence s1.pending_retransmits
        retransmitted_seqs := addSeq p.sequence s1.retransmitted_seqs
        stats := { s1.stats with retransmit_requests := s1.stats.retransmit_requests + 1 } }

/-- The Python exception raised by `_should_flush` line 125. -/
def attrErrorMsg : String :=
  "AttributeError: EventLogger object has no attribute expected_seq"

/-- `EventLogger._should_flush` (lines 120-134).  When the buffer has
reached `buffer_size` it returns `True` immediately.  Otherwise line 125
evaluates `any(seq_id.sequence == self.expected_seq for seq_id in
self.buffer)`: with a non-empty buffer the generator body reads the
never-assigned attribute `expected_seq` and raises `AttributeError`; with an
empty buffer the body is never evaluated, `has_expected` is `False`, and the
gap-wait counter is incremented and compared to the limit (the reset branch
at line 128 is unreachable). -/
def shouldFlush (s : LoggerState) : Except String (Bool × LoggerState) :=
  if s.buffer_size ≤ s.buffer.length then Except.ok (true, s)
  else
    match s.buffer with
    | [] =>
      let s1 := { s with gap_wait_cycles := s.gap_wait_cycles + 1 }
      if s1.gap_wait_cycles < s1.gap_wait_limit then Except.ok (false, s1)
      else Except.ok (true, s1)
    | _ :: _ => Except.error attrErrorMsg

/-- Line 81 of `run`: count a received packet. -/
def bumpReceived (s : LoggerState) : LoggerState :=
  { s with stats := { s.stats with packets_received := s.stats.packets_received + 1 } }

/-- One iteration of the receive loop (lines 75-85) on a delivered packet:
count it, handle it, then flush if `_should_flush` says so.  An uncaught
exception propagates (`run` catches only `SystemExit`). -/
def processEvent (s : LoggerState) (ev : Packet × Bool) : Except String LoggerState :=
  let s1 := handlePacket (bumpReceived s) ev.1 ev.2
  match shouldFlush s1 with
  | Except.error msg => Except.error msg
  | Except.ok (true, s2) => Except.ok (flushBuffer s2)
  | Except.ok (false, s2) => Except.ok s2

/-- `EventLogger.run` from a given state: process each delivered packet in
order; when the source returns `None`, `_finalize` runs and the final state
is returned. -/
def runLoop (s : LoggerState) : List (Packet × Bool) → Except String LoggerState
  | [] => Except.ok (finalizeLogger s)
  | ev :: evs =>
    match processEvent s ev with
    | Except.error msg => Except.error msg
    | Except.ok s1 => runLoop s1 evs

/-- `EventLogger(source, log_file, buffer_size)` on a fresh (empty) log file
followed by `run()`: the returned value is the statistics, or the uncaught
exception. -/
def runEventLogger (bufferSize : Nat) (events : List (Packet × Bool)) :
    Except String LoggerStats :=
  (runLoop (initState bufferSize) events).map LoggerState.stats

/-! ### Startup recovery (`_load_existing_log`, lines 250-274)

Text is modelled over `List Char`.  `str.strip` is `trimChars`,
`str.splitlines` on the newline-joined lines the logger itself writes is
`splitOnChar` at a newline, and `str.split(",", 3)` is `pySplitComma3`. -/

/-- Split a character list at every occurrence of `c` (Python `str.split(c)`
on a non-empty separator: always at least one field). -/
def splitOnChar (c : Char) : List Char → List (List Char)
  | [] => [[]]
  | x :: rest =>
    let r := splitOnChar c rest
    if x = c then [] :: r
    else
      match r with
      | [] => [[x]]
      | f :: fs => (x :: f) :: fs

/-- Re-join fields with commas (the tail that `split(",", 3)` leaves in the
fourth field). -/
def joinWithComma : List (List Char) → List Char
  | [] => []
  | [f] => f
  | f :: fs => f ++ ',' :: joinWithComma fs

/-- Python `line.split(",", 3)`: at most three splits, everything after the
third comma stays (with its commas) in the fourth field. -/
def pySplitComma3 (line : List Char) : List (List Char) :=
  let parts := splitOnChar ',' line
  if parts.length ≤ 4 then parts
  else parts.take 3 ++ [joinWithComma (parts.drop 3)]

/-- Python `str.strip()`: drop whitespace from both ends. -/
def trimChars (cs : List Char) : List Char :=
  ((cs.dropWhile Char.isWhitespace).reverse.dropWhile Char.isWhitespace).reverse

/-- After the first digit, Python `int()` accepts digits with single
underscores strictly between digits. -/
def pyDigitsTail : List Char → Bool
  | [] => true
  | c :: rest =>
    if c.isDigit then pyDigitsTail rest
    else if c = '_' then
      match rest with
      | [] => false
      | d :: rest2 => d.isDigit && pyDigitsTail rest2
    else false

def pyDigitsOk : List Char → Bool
  | [] => false
  | c :: rest => c.isDigit && pyDigitsTail rest

/-- Decimal value of a digit group (underscores are separators). -/
def digitsVal (cs : List Char) : Nat :=
  cs.foldl (fun a c => if c = '_' then a else a * 10 + (c.toNat - 48)) 0

/-- Python `int(str)`: strip whitespace, optional sign, decimal digits.
`none` models `ValueError`. -/
def parsePyInt (cs : List Char) : Option Int :=
  match trimChars cs with
  | '+' :: rest => if pyDigitsOk rest then some (Int.ofNat (digitsVal rest)) else none
  | '-' :: rest => if pyDigitsOk rest then some (-Int.ofNat (digitsVal rest)) else none
  | t => if pyDigitsOk t then some (Int.ofNat (digitsVal t)) else none

/-- Lines 263-269: a recovery line contributes a sequence iff
`split(",", 3)` yields exactly four fields and the first parses as an
integer; otherwise the line is skipped. -/
def parseLogLine (line : List Char) : Option Int :=
  let info := pySplitComma3 line
  if info.length = 4 then
    match info with
    | f :: _ => parsePyInt f
    | [] => none
  else none

/-- The loop body of lines 262-271: add a parsed sequence to the seen set
and remember it as the latest. -/
def loadFoldStep (acc : List Int × Int) (line : List Char) : List Int × Int :=
  match parseLogLine line with
  | none => acc
  | some q => (addSeq q acc.1, q)

/-- The lines recovery iterates over: the stripped content, split at
newlines. -/
def logLinesOf (content : String) : List (List Char) :=
  splitOnChar '\n' (trimChars content.toList)

/-- The sequences recovery successfully parses, in file order. -/
def parsedSeqs (content : String) : List Int :=
  (logLinesOf content).filterMap parseLogLine

/-- `EventLogger.__init__` + `_load_existing_log` over the current content
of the log file (lines 250-274). -/
def loadExistingLog (bufferSize : Nat) (content : String) : LoggerState :=
  let base := initState bufferSize
  if trimChars content.toList = [] then base
  else
    let r := (logLinesOf content).foldl loadFoldStep (base.seen_sequences, -1)
    { base with
      seen_sequences := r.1
      last_written_seq := r.2
      expected_sequence := r.2 + 1 }

/-- Sequences of the written log lines, in write order. -/
def logSeqs (s : LoggerState) : List Int := s.log.map LogEntry.sequence

/-- Sequences of the buffered packets. -/
def bufSeqs (s : LoggerState) : List Int := s.buffer.map Packet.sequence

/-- All sequences the engine currently holds: written ones then buffered
ones. -/
def allSeqs (s : LoggerState) : List Int := logSeqs s ++ bufSeqs s

/-- Dedup invariant, relative to the set `s0` of sequences recovered from a
pre-existing log file: the held sequences are pairwise distinct, every held
sequence is in the seen set, the recovered sequences are in the seen set,
and no held sequence is a recovered one. -/
def DedupInv (s0 : List Int) (s : LoggerState) : Prop :=
  (allSeqs s).Nodup ∧
  (∀ q ∈ allSeqs s, q ∈ s.seen_sequences) ∧
  (∀ q ∈ s0, q ∈ s.seen_sequences) ∧
  (∀ q ∈ allSeqs s, q ∉ s0)

/-- One-shot-retransmit invariant: the retransmit requests issued so far are
pairwise distinct, and a sequence has been requested iff it is in
`pending_retransmits` (which the engine never removes from). -/
def ReqInv (s : LoggerState) : Prop :=
  s.requests.Nodup ∧ ∀ q : Int, q ∈ s.requests ↔ q ∈ s.pending_retransmits

/-- A packet with the given sequence and opaque rendered fields. -/
def mkPacket (n : Int) : Packet := { sequence := n, timestamp := "", payload := "" }

/-! ### Basic lemmas -/

theorem mem_addSeq {q r : Int} {l : List Int} : q ∈ addSeq r l ↔ q = r ∨ q ∈ l := by
  unfold addSeq
  by_cases h : r ∈ l
  · simp only [if_pos h]
    constructor
    · exact Or.inr
    · rintro (rfl | hq)
      · exact h
      · exact hq
  · simp [if_neg h, List.mem_cons]

theorem self_mem_addSeq {r : Int} {l : List Int} : r ∈ addSeq r l :=
  mem_addSeq.mpr (Or.inl rfl)

theorem mem_addSeq_of_mem {q r : Int} {l : List Int} (h : q ∈ l) : q ∈ addSeq r l :=
  mem_addSeq.mpr (Or.inr h)

@[simp] theorem writePacket_buffer (s : LoggerState) (p : Packet) (st : Status) :
    (writePacket s p st).buffer = s.buffer := rfl

@[simp] theorem writePacket_seen (s : LoggerState) (p : Packet) (st : Status) :
    (writePacket s p st).seen_sequences = s.seen_sequences := rfl

@[simp] theorem writePacket_pending (s : LoggerState) (p : Packet) (st : Status) :
    (writePacket s p st).pending_retransmits = s.pending_retransmits := rfl

@[simp] theorem writePacket_retr (s : LoggerState) (p : Packet) (st : Status) :
    (writePacket s p st).retransmitted_seqs = s.retransmitted_seqs := rfl

@[simp] theorem writePacket_requests (s : LoggerState) (p : Packet) (st : Status) :
    (writePacket s p st).requests = s.requests := rfl

@[simp] theorem writePacket_expected (s : LoggerState) (p : Packet) (st : Status) :
    (writePacket s p st).expected_sequence = s.expected_sequence := rfl

@[simp] theorem writePacket_buffer_size (s : LoggerState) (p : Packet) (st : Status) :
    (writePacket s p st).buffer_size = s.buffer_size := rfl

@[simp] theorem writePacket_gap_skip_limit (s : LoggerState) (p : Packet) (st : Status) :
    (writePacket s p st).gap_skip_limit = s.gap_skip_limit := rfl

@[simp] theorem writePacket_log (s : LoggerState) (p : Packet) (st : Status) :
    (writePacket s p st).log =
      s.log ++ [{ sequence := p.sequence, timestamp := p.timestamp, payload := p.payload,
                  status := resolveStatus st (outOfOrder s p.sequence) }] := rfl

theorem popSeq_some {t : Int} :
    ∀ {l : List Packet} {p : Packet} {r : List Packet},
      popSeq t l = some (p, r) → p.sequence = t ∧ l.Perm (p :: r) := by
  intro l
  induction l with
  | nil => intro p r h; simp [popSeq] at h
  | cons a as ih =>
    intro p r h
    unfold popSeq at h
    by_cases ha : a.sequence = t
    · rw [if_pos ha, Option.some.injEq, Prod.mk.injEq] at h
      obtain ⟨rfl, rfl⟩ := h
      exact ⟨ha, List.Perm.refl _⟩
    · rw [if_neg ha] at h
      cases hrec : popSeq t as with
      | none => rw [hrec] at h; cases h
      | some pr =>
        obtain ⟨q, rr⟩ := pr
        rw [hrec, Option.some.injEq, Prod.mk.injEq] at h
        obtain ⟨rfl, rfl⟩ := h
        obtain ⟨h1, h2⟩ := ih hrec
        exact ⟨h1, (h2.cons a).trans (List.Perm.swap q a rr)⟩

theorem popSeq_none {t : Int} :
    ∀ {l : List Packet}, popSeq t l = none ↔ ∀ p ∈ l, p.sequence ≠ t := by
  intro l
  induction l with
  | nil => simp [popSeq]
  | cons a as ih =>
    unfold popSeq
    by_cases ha : a.sequence = t
    · simp [ha]
    · rw [if_neg ha]
      cases hrec : popSeq t as with
      | none =>
        simp only [List.mem_cons]
        constructor
        · intro _ p hp
          rcases hp with rfl | hp
          · exact ha
          · exact ih.mp hrec p hp
        · intro _; trivial
      | some pr =>
        obtain ⟨q, rr⟩ := pr
        constructor
        · intro h; cases h
        · intro h
          have : popSeq t as = none := ih.mpr fun p hp => h p (List.mem_cons_of_mem a hp)
          rw [this] at hrec; cases hrec

theorem insertBySeq_perm (p : Packet) : ∀ l : List Packet, (insertBySeq p l).Perm (p :: l) := by
  intro l
  induction l with
  | nil => simp [insertBySeq]
  | cons q rest ih =>
    unfold insertBySeq
    by_cases h : q.sequence < p.sequence
    · rw [if_pos h]
      exact (ih.cons q).trans (List.Perm.swap p q rest)
    · rw [if_neg h]

theorem sortBuffer_perm (l : List Packet) : (sortBuffer l).Perm l := by
  induction l with
  | nil => exact List.Perm.refl _
  | cons p rest ih =>
    have he : sortBuffer (p :: rest) = insertBySeq p (sortBuffer rest) := rfl
    rw [he]
    exact (insertBySeq_perm p _).trans (ih.cons p)

theorem sortBuffer_length (l : List Packet) : (sortBuffer l).length = l.length :=
  (sortBuffer_perm l).length_eq

theorem mem_sortBuffer {p : Packet} {l : List Packet} : p ∈ sortBuffer l ↔ p ∈ l :=
  (sortBuffer_perm l).mem_iff

/-! ### Which fields each loop leaves untouched -/

theorem drainGo_fields (fuel : Nat) :
    ∀ s : LoggerState,
      (drainGo fuel s).seen_sequences = s.seen_sequences ∧
      (drainGo fuel s).pending_retransmits = s.pending_retransmits ∧
      (drainGo fuel s).retransmitted_seqs = s.retransmitted_seqs ∧
      (drainGo fuel s).requests = s.requests ∧
      (drainGo fuel s).buffer_size = s.buffer_size ∧
      (drainGo fuel s).gap_skip_limit = s.gap_skip_limit := by
  induction fuel with
  | zero => intro s; exact ⟨rfl, rfl, rfl, rfl, rfl, rfl⟩
  | succ n ih =>
    intro s
    simp only [drainGo]
    cases h : popSeq s.expected_sequence s.buffer with
    | none => exact ⟨rfl, rfl, rfl, rfl, rfl, rfl⟩
    | some pr =>
      obtain ⟨p, rest⟩ := pr
      exact ih _

theorem gapSkipGo_fields (fuel : Nat) :
    ∀ s : LoggerState,
      (gapSkipGo fuel s).seen_sequences = s.seen_sequences ∧
      (gapSkipGo fuel s).pending_retransmits = s.pending_retransmits ∧
      (gapSkipGo fuel s).retransmitted_seqs = s.retransmitted_seqs ∧
      (gapSkipGo fuel s).requests = s.requests ∧
      (gapSkipGo fuel s).buffer_size = s.buffer_size := by
  induction fuel with
  | zero => intro s; exact ⟨rfl, rfl, rfl, rfl, rfl⟩
  | succ n ih =>
    intro s
    simp only [gapSkipGo]
    cases h : sortBuffer s.buffer with
    | nil => exact ⟨rfl, rfl, rfl, rfl, rfl⟩
    | cons q qs =>
      dsimp only
      by_cases hlt : s.expected_sequence < q.sequence
      · rw [if_pos hlt]
        obtain ⟨i1, i2, i3, i4, i5⟩ := ih (drainLoop
          { s with buffer := q :: qs, expected_sequence := s.expected_sequence + 1,
                   stats := { s.stats with gaps := s.stats.gaps + 1 } })
        obtain ⟨d1, d2, d3, d4, d5, _⟩ := drainGo_fields _
          { s with buffer := q :: qs, expected_sequence := s.expected_sequence + 1,
                   stats := { s.stats with gaps := s.stats.gaps + 1 } }
        unfold drainLoop at i1 i2 i3 i4 i5
        exact ⟨i1.trans d1, i2.trans d2, i3.trans d3, i4.trans d4, i5.trans d5⟩
      · rw [if_neg hlt]
        exact ⟨rfl, rfl, rfl, rfl, rfl⟩

theorem boundGo_fields (fuel : Nat) :
    ∀ s : LoggerState,
      (boundGo fuel s).seen_sequences = s.seen_sequences ∧
      (boundGo fuel s).pending_retransmits = s.pending_retransmits ∧
      (boundGo fuel s).retransmitted_seqs = s.retransmitted_seqs ∧
      (boundGo fuel s).requests = s.requests ∧
      (boundGo fuel s).expected_sequence = s.expected_sequence := by
  induction fuel with
  | zero => intro s; exact ⟨rfl, rfl, rfl, rfl, rfl⟩
  | succ n ih =>
    intro s
    simp only [boundGo]
    by_cases hle : s.buffer.length ≤ s.buffer_size
    · rw [if_pos hle]; exact ⟨rfl, rfl, rfl, rfl, rfl⟩
    · rw [if_neg hle]
      cases h : sortBuffer s.buffer with
      | nil => exact ⟨rfl, rfl, rfl, rfl, rfl⟩
      | cons p rest => exact ih _

theorem evictList_fields :
    ∀ (ls : List Packet) (s : LoggerState),
      (evictList s ls).seen_sequences = s.seen_sequences ∧
      (evictList s ls).pending_retransmits = s.pending_retransmits ∧
      (evictList s ls).retransmitted_seqs = s.retransmitted_seqs ∧
      (evictList s ls).requests = s.requests ∧
      (evictList s ls).expected_sequence = s.expected_sequence ∧
      (evictList s ls).buffer_size = s.buffer_size := by
  intro ls
  induction ls with
  | nil => intro s; exact ⟨rfl, rfl, rfl, rfl, rfl, rfl⟩
  | cons p rest ih => intro s; exact ih _

theorem missingHead_cases (s : LoggerState) :
    (s.buffer.any (fun q => q.sequence == s.expected_sequence) = false →
      s.expected_sequence ∉ s.pending_retransmits →
      missingHead s =
        { s with
          requests := s.requests ++ [s.expected_sequence]
          pending_retransmits := addSeq s.expected_sequence s.pending_retransmits
          retransmitted_seqs := addSeq s.expected_sequence s.retransmitted_seqs
          stats := { s.stats with
            retransmit_requests := s.stats.retransmit_requests + 1 } }) ∧
    (s.buffer.any (fun q => q.sequence == s.expected_sequence) = true →
      missingHead s = s) ∧
    (s.expected_sequence ∈ s.pending_retransmits → missingHead s = s) := by
  refine ⟨?_, ?_, ?_⟩
  · intro h1 h2
    unfold missingHead
    rw [h1]
    simp only [Bool.false_eq_true, if_false, if_neg h2]
  · intro h1
    unfold missingHead
    rw [h1]
    simp
  · intro h2
    unfold missingHead
    by_cases h1 : s.buffer.any (fun q => q.sequence == s.expected_sequence)
    · rw [if_pos h1]
    · rw [if_neg h1, if_pos h2]

theorem missingHead_buffer (s : LoggerState) : (missingHead s).buffer = s.buffer := by
  unfold missingHead
  split
  · rfl
  · split <;> rfl

theorem missingHead_log (s : LoggerState) : (missingHead s).log = s.log := by
  unfold missingHead
  split
  · rfl
  · split <;> rfl

theorem missingHead_seen (s : LoggerState) :
    (missingHead s).seen_sequences = s.seen_sequences := by
  unfold missingHead
  split
  · rfl
  · split <;> rfl

theorem missingHead_expected (s : LoggerState) :
    (missingHead s).expected_sequence = s.expected_sequence := by
  unfold missingHead
  split
  · rfl
  · split <;> rfl

theorem missingHead_buffer_size (s : LoggerState) :
    (missingHead s).buffer_size = s.buffer_size := by
  unfold missingHead
  split
  · rfl
  · split <;> rfl

theorem missingHead_gap_skip_limit (s : LoggerState) :
    (missingHead s).gap_skip_limit = s.gap_skip_limit := by
  unfold missingHead
  split
  · rfl
  · split <;> rfl

/-! ### `allSeqs` is preserved (up to permutation) by everything that only
moves packets from the buffer to the log -/

theorem allSeqs_write_perm {s : LoggerState} {p : Packet} {rest : List Packet}
    (h : s.buffer.Perm (p :: rest)) (st : Status) :
    (allSeqs (writePacket { s with buffer := rest } p st)).Perm (allSeqs s) := by
  unfold allSeqs logSeqs bufSeqs
  simp only [writePacket_log, writePacket_buffer, List.map_append, List.map_cons,
    List.map_nil, List.append_assoc]
  refine List.Perm.append_left _ ?_
  have h2 := (h.map Packet.sequence).symm
  simpa using h2

theorem allSeqs_set_buffer_perm (s : LoggerState) :
    (allSeqs { s with buffer := sortBuffer s.buffer }).Perm (allSeqs s) := by
  unfold allSeqs logSeqs bufSeqs
  exact List.Perm.append_left _ ((sortBuffer_perm s.buffer).map _)

theorem drainGo_perm (fuel : Nat) :
    ∀ s : LoggerState, (allSeqs (drainGo fuel s)).Perm (allSeqs s) := by
  induction fuel with
  | zero => intro s; exact List.Perm.refl _
  | succ n ih =>
    intro s
    simp only [drainGo]
    cases h : popSeq s.expected_sequence s.buffer with
    | none => exact List.Perm.refl _
    | some pr =>
      obtain ⟨p, rest⟩ := pr
      have hperm := (popSeq_some h).2
      exact (ih _).trans (allSeqs_write_perm hperm _)

theorem drainLoop_perm (s : LoggerState) : (allSeqs (drainLoop s)).Perm (allSeqs s) :=
  drainGo_perm _ s

theorem missingHead_allSeqs (s : LoggerState) : allSeqs (missingHead s) = allSeqs s := by
  unfold allSeqs logSeqs bufSeqs
  rw [missingHead_buffer, missingHead_log]

theorem gapSkipGo_perm (fuel : Nat) :
    ∀ s : LoggerState, (allSeqs (gapSkipGo fuel s)).Perm (allSeqs s) := by
  induction fuel with
  | zero => intro s; exact List.Perm.refl _
  | succ n ih =>
    intro s
    simp only [gapSkipGo]
    cases h : sortBuffer s.buffer with
    | nil => exact List.Perm.refl _
    | cons q qs =>
      dsimp only
      by_cases hlt : s.expected_sequence < q.sequence
      · rw [if_pos hlt]
        refine ((ih _).trans (drainLoop_perm _)).trans ?_
        unfold allSeqs logSeqs bufSeqs
        refine List.Perm.append_left _ ?_
        rw [← h]
        exact (sortBuffer_perm s.buffer).map _
      · rw [if_neg hlt]

theorem boundGo_perm (fuel : Nat) :
    ∀ s : LoggerState, (allSeqs (boundGo fuel s)).Perm (allSeqs s) := by
  induction fuel with
  | zero => intro s; exact List.Perm.refl _
  | succ n ih =>
    intro s
    simp only [boundGo]
    by_cases hle : s.buffer.length ≤ s.buffer_size
    · rw [if_pos hle]
    · rw [if_neg hle]
      cases h : sortBuffer s.buffer with
      | nil => exact List.Perm.refl _
      | cons p rest =>
        dsimp only
        have hperm : s.buffer.Perm (p :: rest) := h ▸ (sortBuffer_perm s.buffer).symm
        exact (ih _).trans (allSeqs_write_perm hperm _)

theorem evictList_perm :
    ∀ (ls : List Packet) (s : LoggerState), s.buffer = ls →
      (allSeqs (evictList s ls)).Perm (allSeqs s) := by
  intro ls
  induction ls with
  | nil => intro s _; exact List.Perm.refl _
  | cons p rest ih =>
    intro s hbuf
    have hperm : s.buffer.Perm (p :: rest) := by rw [hbuf]
    exact (ih _ rfl).trans (allSeqs_write_perm hperm _)

theorem preFlush_allSeqs_perm (s : LoggerState) :
    (allSeqs (preFlush s)).Perm (allSeqs s) := by
  unfold preFlush allSeqs logSeqs bufSeqs
  exact List.Perm.append_left _ ((sortBuffer_perm s.buffer).map _)

theorem flushBuffer_perm (s : LoggerState) :
    (allSeqs (flushBuffer s)).Perm (allSeqs s) := by
  unfold flushBuffer
  by_cases h : s.buffer = []
  · rw [if_pos h]
  · rw [if_neg h]
    refine (boundGo_perm _ _).trans ((gapSkipGo_perm _ _).trans ?_)
    rw [missingHead_allSeqs]
    refine (allSeqs_set_buffer_perm _).trans ?_
    exact (drainLoop_perm _).trans (preFlush_allSeqs_perm s)

theorem finalizeLogger_perm (s : LoggerState) :
    (allSeqs (finalizeLogger s)).Perm (allSeqs s) := by
  unfold finalizeLogger
  refine List.Perm.trans ?_ (flushBuffer_perm s)
  have h1 := evictList_perm (sortBuffer (flushBuffer s).buffer)
    { flushBuffer s with buffer := sortBuffer (flushBuffer s).buffer } rfl
  refine List.Perm.trans ?_ ((h1).trans (allSeqs_set_buffer_perm _))
  exact List.Perm.refl _

/-! ### Loop postconditions and output characterizations -/

theorem popSeq_length {t : Int} {l : List Packet} {p : Packet} {r : List Packet}
    (h : popSeq t l = some (p, r)) : r.length + 1 = l.length := by
  have := ((popSeq_some h).2).length_eq
  simpa using this.symm

/-- When the fuel covers the buffer length (as it does in `drainLoop`), the
contiguous drain only stops once no buffered packet matches the cursor. -/
theorem drainGo_post (fuel : Nat) :
    ∀ s : LoggerState, s.buffer.length ≤ fuel →
      ∀ p ∈ (drainGo fuel s).buffer, p.sequence ≠ (drainGo fuel s).expected_sequence := by
  induction fuel with
  | zero =>
    intro s hlen p hp
    have hb : s.buffer = [] := List.length_eq_zero.mp (Nat.le_zero.mp hlen)
    simp only [drainGo, hb] at hp
    cases hp
  | succ n ih =>
    intro s hlen
    simp only [drainGo]
    cases h : popSeq s.expected_sequence s.buffer with
    | none =>
      intro p hp
      exact popSeq_none.mp h p hp
    | some pr =>
      obtain ⟨p, rest⟩ := pr
      have hl := popSeq_length h
      exact ih _ (by simp only [writePacket_buffer]; omega)

/-- Any fuel covering the buffer length computes the same contiguous
drain: the `while True` loop of lines 144-159 is fuel-independent, so
`drainLoop` (fuel = `buffer.length`) is its exact semantics. -/
theorem drainGo_fuel_eq :
    ∀ (f1 f2 : Nat) (s : LoggerState), s.buffer.length ≤ f1 → s.buffer.length ≤ f2 →
      drainGo f1 s = drainGo f2 s := by
  intro f1
  induction f1 with
  | zero =>
    intro f2 s h1 _
    have hb : s.buffer = [] := List.length_eq_zero.mp (Nat.le_zero.mp h1)
    have hpop : popSeq s.expected_sequence s.buffer = none := by
      rw [hb]; rfl
    cases f2 with
    | zero => rfl
    | succ m => simp only [drainGo, hpop]
  | succ n ih =>
    intro f2 s _ h2
    cases hpop : popSeq s.expected_sequence s.buffer with
    | none =>
      cases f2 with
      | zero => simp only [drainGo, hpop]
      | succ m => simp only [drainGo, hpop]
    | some pr =>
      obtain ⟨p, rest⟩ := pr
      have hl := popSeq_length hpop
      cases f2 with
      | zero =>
        have : s.buffer = [] := List.length_eq_zero.mp (Nat.le_zero.mp h2)
        rw [this] at hpop
        cases hpop
      | succ m =>
        simp only [drainGo, hpop]
        exact ih m _ (by simp only [writePacket_buffer]; omega)
          (by simp only [writePacket_buffer]; omega)

/-- Any fuel covering the buffer length computes the same
bound-enforcement loop: lines 202-209 are fuel-independent, so `boundLoop`
(fuel = `buffer.length`) is their exact semantics. -/
theorem boundGo_fuel_eq :
    ∀ (f1 f2 : Nat) (s : LoggerState), s.buffer.length ≤ f1 → s.buffer.length ≤ f2 →
      boundGo f1 s = boundGo f2 s := by
  intro f1
  induction f1 with
  | zero =>
    intro f2 s h1 _
    have hb : s.buffer = [] := List.length_eq_zero.mp (Nat.le_zero.mp h1)
    have hle : s.buffer.length ≤ s.buffer_size := by
      rw [hb]; exact Nat.zero_le _
    cases f2 with
    | zero => rfl
    | succ m => simp only [boundGo, if_pos hle]
  | succ n ih =>
    intro f2 s _ h2
    by_cases hle : s.buffer.length ≤ s.buffer_size
    · cases f2 with
      | zero => simp only [boundGo, if_pos hle]
      | succ m => simp only [boundGo, if_pos hle]
    · have hpos : 0 < s.buffer.length := by omega
      cases f2 with
      | zero => omega
      | succ m =>
        simp only [boundGo, if_neg hle]
        cases hsort : sortBuffer s.buffer with
        | nil => rfl
        | cons p rest =>
          dsimp only
          have hlen : rest.length + 1 = s.buffer.length := by
            have := sortBuffer_length s.buffer
            rw [hsort] at this
            simpa using this
          exact ih m _ (by simp only [writePacket_buffer]; omega)
            (by simp only [writePacket_buffer]; omega)

theorem resolveStatus_late (b : Bool) : resolveStatus Status.LATE b = Status.LATE := by
  cases b <;> rfl

theorem resolveStatus_retransmit (b : Bool) :
    resolveStatus Status.RETRANSMIT b = Status.RETRANSMIT := by
  cases b <;> rfl

theorem resolveStatus_evict (r : List Int) (p : Packet) (b : Bool) :
    resolveStatus (evictStatus r p) b = evictStatus r p := by
  unfold evictStatus
  by_cases h : p.sequence ∈ r
  · rw [if_pos h]; exact resolveStatus_retransmit b
  · rw [if_neg h]; exact resolveStatus_late b

theorem drainStatus_of_retr {r : List Int} {p : Packet} (h : p.sequence ∈ r) :
    drainStatus r p = Status.RETRANSMIT := by
  unfold drainStatus; rw [if_pos h]

theorem evictStatus_of_retr {r : List Int} {p : Packet} (h : p.sequence ∈ r) :
    evictStatus r p = Status.RETRANSMIT := by
  unfold evictStatus; rw [if_pos h]

theorem evictList_buffer :
    ∀ (ls : List Packet) (s : LoggerState), s.buffer = ls → (evictList s ls).buffer = [] := by
  intro ls
  induction ls with
  | nil => intro s h; exact h
  | cons p rest ih => intro s _; exact ih _ rfl

theorem evictList_log :
    ∀ (ls : List Packet) (s : LoggerState), s.buffer = ls →
      (evictList s ls).log =
        s.log ++ ls.map (fun p =>
          { sequence := p.sequence, timestamp := p.timestamp, payload := p.payload,
            status := evictStatus s.retransmitted_seqs p }) := by
  intro ls
  induction ls with
  | nil => intro s _; simp [evictList]
  | cons p rest ih =>
    intro s _
    have hrec := ih (writePacket { s with buffer := rest } p
      (evictStatus s.retransmitted_seqs p)) rfl
    unfold evictList
    rw [hrec]
    simp only [writePacket_retr, writePacket_log, resolveStatus_evict, List.map_cons,
      List.append_assoc, List.singleton_append]

/-- `_flush_buffer` on a non-empty buffer is the four phases in sequence. -/
theorem flushBuffer_decomp (s : LoggerState) (h : s.buffer ≠ []) :
    flushBuffer s =
      boundLoop (gapSkipLoop (missingHead
        { drainLoop (preFlush s) with buffer := sortBuffer (drainLoop (preFlush s)).buffer })) := by
  unfold flushBuffer
  rw [if_neg h]

theorem flushBuffer_seen (s : LoggerState) :
    (flushBuffer s).seen_sequences = s.seen_sequences := by
  by_cases h : s.buffer = []
  · unfold flushBuffer; rw [if_pos h]
  · rw [flushBuffer_decomp s h]
    unfold boundLoop gapSkipLoop drainLoop
    rw [(boundGo_fields _ _).1, (gapSkipGo_fields _ _).1, missingHead_seen]
    exact (drainGo_fields _ _).1

theorem finalizeLogger_seen (s : LoggerState) :
    (finalizeLogger s).seen_sequences = s.seen_sequences := by
  unfold finalizeLogger
  rw [(evictList_fields _ _).1]
  exact flushBuffer_seen s

/-- `_should_flush` never mutates anything but the gap-wait counter: when it
returns, the state it hands back agrees with its input on every other
field. -/
theorem shouldFlush_ok {s s' : LoggerState} {b : Bool}
    (h : shouldFlush s = Except.ok (b, s')) :
    s'.seen_sequences = s.seen_sequences ∧ allSeqs s' = allSeqs s ∧
    s'.requests = s.requests ∧ s'.pending_retransmits = s.pending_retransmits := by
  unfold shouldFlush at h
  by_cases h1 : s.buffer_size ≤ s.buffer.length
  · rw [if_pos h1, Except.ok.injEq, Prod.mk.injEq] at h
    obtain ⟨_, rfl⟩ := h
    exact ⟨rfl, rfl, rfl, rfl⟩
  · rw [if_neg h1] at h
    cases hb : s.buffer with
    | nil =>
      rw [hb] at h
      dsimp only at h
      split at h <;>
      · rw [Except.ok.injEq, Prod.mk.injEq] at h
        obtain ⟨_, rfl⟩ := h
        refine ⟨rfl, ?_, rfl, rfl⟩
        unfold allSeqs logSeqs bufSeqs
        simp [hb]
    | cons p rest =>
      rw [hb] at h
      dsimp only at h
      cases h

/-! ### The dedup invariant is preserved by every step -/

theorem DedupInv.of_perm {s0 : List Int} {s s' : LoggerState}
    (hperm : (allSeqs s').Perm (allSeqs s))
    (hseen : s'.seen_sequences = s.seen_sequences)
    (h : DedupInv s0 s) : DedupInv s0 s' := by
  obtain ⟨h1, h2, h3, h4⟩ := h
  refine ⟨hperm.nodup_iff.mpr h1, ?_, ?_, ?_⟩
  · intro q hq
    rw [hseen]
    exact h2 q (hperm.mem_iff.mp hq)
  · intro q hq
    rw [hseen]
    exact h3 q hq
  · intro q hq
    exact h4 q (hperm.mem_iff.mp hq)

theorem handlePacket_dedup {s0 : List Int} {s : LoggerState} (p : Packet) (ok : Bool)
    (h : DedupInv s0 s) : DedupInv s0 (handlePacket s p ok) := by
  obtain ⟨h1, h2, h3, h4⟩ := h
  cases ok with
  | false =>
    unfold handlePacket
    rw [if_neg Bool.false_ne_true]
    dsimp only
    split
    · exact ⟨h1, h2, h3, h4⟩
    · exact ⟨h1, h2, h3, h4⟩
  | true =>
    unfold handlePacket
    rw [if_pos rfl]
    by_cases hseen : p.sequence ∈ s.seen_sequences
    · rw [if_pos hseen]
      exact ⟨h1, h2, h3, h4⟩
    · rw [if_neg hseen]
      have hfresh : p.sequence ∉ allSeqs s := fun hmem => hseen (h2 _ hmem)
      have hs0 : p.sequence ∉ s0 := fun hmem => hseen (h3 _ hmem)
      have key : ∀ t : LoggerState,
          t.log = s.log → t.buffer = s.buffer ++ [p] →
          t.seen_sequences = addSeq p.sequence s.seen_sequences → DedupInv s0 t := by
        intro t hlog hbuf hsn
        have hall : allSeqs t = allSeqs s ++ [p.sequence] := by
          unfold allSeqs logSeqs bufSeqs
          rw [hlog, hbuf, List.map_append, List.append_assoc]
          rfl
        refine ⟨?_, ?_, ?_, ?_⟩
        · rw [hall, List.nodup_append]
          exact ⟨h1, List.nodup_singleton _,
            fun a ha hb => hfresh (by simpa using (List.mem_singleton.mp hb) ▸ ha)⟩
        · intro q hq
          rw [hall, List.mem_append] at hq
          rw [hsn]
          rcases hq with hq | hq
          · exact mem_addSeq_of_mem (h2 q hq)
          · rw [List.mem_singleton.mp hq]
            exact self_mem_addSeq
        · intro q hq
          rw [hsn]
          exact mem_addSeq_of_mem (h3 q hq)
        · intro q hq
          rw [hall, List.mem_append] at hq
          rcases hq with hq | hq
          · exact h4 q hq
          · rw [List.mem_singleton.mp hq]
            exact hs0
      dsimp only
      by_cases hr : p.sequence ∈ s.retransmitted_seqs
      · rw [if_pos hr]
        exact key _ rfl rfl rfl
      · rw [if_neg hr]
        exact key _ rfl rfl rfl

theorem processEvent_dedup {s0 : List Int} {s s' : LoggerState} {ev : Packet × Bool}
    (h : DedupInv s0 s) (hp : processEvent s ev = Except.ok s') : DedupInv s0 s' := by
  unfold processEvent at hp
  dsimp only at hp
  have hd1 : DedupInv s0 (handlePacket (bumpReceived s) ev.1 ev.2) := by
    refine handlePacket_dedup _ _ (DedupInv.of_perm ?_ rfl h)
    exact List.Perm.refl _
  cases hq : shouldFlush (handlePacket (bumpReceived s) ev.1 ev.2) with
  | error msg => rw [hq] at hp; cases hp
  | ok pr =>
    obtain ⟨b, s2⟩ := pr
    rw [hq] at hp
    obtain ⟨e1, e2, _, _⟩ := shouldFlush_ok hq
    have hd2 : DedupInv s0 s2 := DedupInv.of_perm (e2 ▸ List.Perm.refl _) e1 hd1
    cases b with
    | true =>
      dsimp only at hp
      rw [Except.ok.injEq] at hp
      rw [← hp]
      exact DedupInv.of_perm (flushBuffer_perm s2) (flushBuffer_seen s2) hd2
    | false =>
      dsimp only at hp
      rw [Except.ok.injEq] at hp
      rw [← hp]
      exact hd2

theorem finalizeLogger_dedup {s0 : List Int} {s : LoggerState}
    (h : DedupInv s0 s) : DedupInv s0 (finalizeLogger s) :=
  DedupInv.of_perm (finalizeLogger_perm s) (finalizeLogger_seen s) h

theorem runLoop_dedup {s0 : List Int} :
    ∀ (evs : List (Packet × Bool)) (s s' : LoggerState),
      DedupInv s0 s → runLoop s evs = Except.ok s' → DedupInv s0 s' := by
  intro evs
  induction evs with
  | nil =>
    intro s s' h hr
    unfold runLoop at hr
    rw [Except.ok.injEq] at hr
    rw [← hr]
    exact finalizeLogger_dedup h
  | cons ev rest ih =>
    intro s s' h hr
    unfold runLoop at hr
    cases hp : processEvent s ev with
    | error msg => rw [hp] at hr; cases hr
    | ok s1 =>
      rw [hp] at hr
      exact ih s1 s' (processEvent_dedup h hp) hr

/-! ### Recovery characterization -/

theorem loadFold_spec :
    ∀ (lines : List (List Char)) (seen : List Int) (last : Int),
      (∀ q : Int, q ∈ (lines.foldl loadFoldStep (seen, last)).1 ↔
          q ∈ seen ∨ q ∈ lines.filterMap parseLogLine) ∧
      (lines.foldl loadFoldStep (seen, last)).2 =
        (lines.filterMap parseLogLine).getLastD last := by
  intro lines
  induction lines with
  | nil => intro seen last; simp
  | cons ln rest ih =>
    intro seen last
    simp only [List.foldl_cons, List.filterMap_cons]
    cases hp : parseLogLine ln with
    | none => simpa [loadFoldStep, hp] using ih seen last
    | some q =>
      simp only [loadFoldStep, hp]
      obtain ⟨i1, i2⟩ := ih (addSeq q seen) q
      constructor
      · intro r
        rw [i1 r, mem_addSeq]
        simp only [List.mem_cons]
        tauto
      · rw [i2, List.getLastD_cons]

theorem loadExistingLog_spec (bs : Nat) (content : String) :
    (∀ q : Int, q ∈ (loadExistingLog bs content).seen_sequences ↔ q ∈ parsedSeqs content) ∧
    (loadExistingLog bs content).last_written_seq = (parsedSeqs content).getLastD (-1) ∧
    (loadExistingLog bs content).expected_sequence =
      (loadExistingLog bs content).last_written_seq + 1 ∧
    (loadExistingLog bs content).buffer = [] ∧
    (loadExistingLog bs content).log = [] ∧
    (loadExistingLog bs content).pending_retransmits = [] ∧
    (loadExistingLog bs content).requests = [] := by
  unfold loadExistingLog
  by_cases h : trimChars content.toList = []
  · rw [if_pos h]
    have hp : parsedSeqs content = [] := by
      unfold parsedSeqs logLinesOf
      rw [h]
      rfl
    rw [hp]
    refine ⟨?_, rfl, by norm_num [initState], rfl, rfl, rfl, rfl⟩
    intro q
    simp [initState]
  · rw [if_neg h]
    obtain ⟨i1, i2⟩ := loadFold_spec (logLinesOf content) (initState bs).seen_sequences (-1)
    refine ⟨?_, ?_, rfl, rfl, rfl, rfl, rfl⟩
    · intro q
      rw [i1 q]
      unfold parsedSeqs
      simp [initState]
    · exact i2

/-! ### One-shot retransmit: `ReqInv` is preserved by every step -/

theorem reqInv_same {s t : LoggerState} (hr : t.requests = s.requests)
    (hp : t.pending_retransmits = s.pending_retransmits) (h : ReqInv s) : ReqInv t := by
  unfold ReqInv at *
  rw [hr, hp]
  exact h

theorem reqInv_add {s t : LoggerState} (e : Int) (he : e ∉ s.pending_retransmits)
    (hr : t.requests = s.requests ++ [e])
    (hp : t.pending_retransmits = addSeq e s.pending_retransmits)
    (h : ReqInv s) : ReqInv t := by
  obtain ⟨h1, h2⟩ := h
  constructor
  · rw [hr, List.nodup_append]
    refine ⟨h1, List.nodup_singleton e, ?_⟩
    intro a ha hb
    rw [List.mem_singleton] at hb
    subst hb
    exact he ((h2 a).mp ha)
  · intro q
    rw [hr, hp, List.mem_append, List.mem_singleton, mem_addSeq, h2 q]
    tauto

theorem missingHead_req_pending (s : LoggerState) :
    ((missingHead s).requests = s.requests ∧
      (missingHead s).pending_retransmits = s.pending_retransmits) ∨
    (∃ e : Int, e ∉ s.pending_retransmits ∧
      (missingHead s).requests = s.requests ++ [e] ∧
      (missingHead s).pending_retransmits = addSeq e s.pending_retransmits) := by
  unfold missingHead
  split
  · left; exact ⟨rfl, rfl⟩
  · split
    · left; exact ⟨rfl, rfl⟩
    · right; exact ⟨s.expected_sequence, by assumption, rfl, rfl⟩

theorem flushBuffer_req (s : LoggerState) (h : ReqInv s) : ReqInv (flushBuffer s) := by
  by_cases hb : s.buffer = []
  · unfold flushBuffer; rw [if_pos hb]; exact h
  · rw [flushBuffer_decomp s hb]
    have hd := drainGo_fields (preFlush s).buffer.length (preFlush s)
    set s3 : LoggerState :=
      { drainLoop (preFlush s) with
        buffer := sortBuffer (drainLoop (preFlush s)).buffer } with hs3
    have h3r : s3.requests = s.requests := hd.2.2.2.1
    have h3p : s3.pending_retransmits = s.pending_retransmits := hd.2.1
    have hg := gapSkipGo_fields (missingHead s3).gap_skip_limit (missingHead s3)
    have hbo := boundGo_fields (gapSkipLoop (missingHead s3)).buffer.length
      (gapSkipLoop (missingHead s3))
    have hfr : (boundLoop (gapSkipLoop (missingHead s3))).requests =
        (missingHead s3).requests := by
      unfold boundLoop gapSkipLoop
      exact hbo.2.2.2.1.trans hg.2.2.2.1
    have hfp : (boundLoop (gapSkipLoop (missingHead s3))).pending_retransmits =
        (missingHead s3).pending_retransmits := by
      unfold boundLoop gapSkipLoop
      exact hbo.2.1.trans hg.2.1
    rcases missingHead_req_pending s3 with ⟨r1, r2⟩ | ⟨e, he, r1, r2⟩
    · exact reqInv_same (hfr.trans (r1.trans h3r)) (hfp.trans (r2.trans h3p)) h
    · refine reqInv_add e (h3p ▸ he) ?_ ?_ h
      · rw [hfr, r1, h3r]
      · rw [hfp, r2, h3p]

theorem handlePacket_req (s : LoggerState) (p : Packet) (ok : Bool)
    (h : ReqInv s) : ReqInv (handlePacket s p ok) := by
  cases ok with
  | true =>
    unfold handlePacket
    rw [if_pos rfl]
    by_cases hseen : p.sequence ∈ s.seen_sequences
    · rw [if_pos hseen]
      exact reqInv_same rfl rfl h
    · rw [if_neg hseen]
      dsimp only
      by_cases hr : p.sequence ∈ s.retransmitted_seqs
      · rw [if_pos hr]
        exact reqInv_same rfl rfl h
      · rw [if_neg hr]
        exact reqInv_same rfl rfl h
  | false =>
    unfold handlePacket
    rw [if_neg Bool.false_ne_true]
    dsimp only
    by_cases hp : p.sequence ∈ s.pending_retransmits
    · rw [if_pos hp]
      exact reqInv_same rfl rfl h
    · rw [if_neg hp]
      exact reqInv_add p.sequence hp rfl rfl h

theorem finalizeLogger_req (s : LoggerState) (h : ReqInv s) : ReqInv (finalizeLogger s) := by
  unfold finalizeLogger
  have he := evictList_fields (sortBuffer (flushBuffer s).buffer)
    { flushBuffer s with buffer := sortBuffer (flushBuffer s).buffer }
  exact reqInv_same he.2.2.2.1 he.2.1 (flushBuffer_req s h)

theorem processEvent_req {s s' : LoggerState} {ev : Packet × Bool}
    (h : ReqInv s) (hp : processEvent s ev = Except.ok s') : ReqInv s' := by
  unfold processEvent at hp
  dsimp only at hp
  have hd1 : ReqInv (handlePacket (bumpReceived s) ev.1 ev.2) :=
    handlePacket_req _ _ _ (reqInv_same rfl rfl h)
  cases hq : shouldFlush (handlePacket (bumpReceived s) ev.1 ev.2) with
  | error msg => rw [hq] at hp; cases hp
  | ok pr =>
    obtain ⟨b, s2⟩ := pr
    rw [hq] at hp
    obtain ⟨_, _, e3, e4⟩ := shouldFlush_ok hq
    have hd2 : ReqInv s2 := reqInv_same e3 e4 hd1
    cases b with
    | true =>
      dsimp only at hp
      rw [Except.ok.injEq] at hp
      rw [← hp]
      exact flushBuffer_req s2 hd2
    | false =>
      dsimp only at hp
      rw [Except.ok.injEq] at hp
      rw [← hp]
      exact hd2

theorem runLoop_req :
    ∀ (evs : List (Packet × Bool)) (s s' : LoggerState),
      ReqInv s → runLoop s evs = Except.ok s' → ReqInv s' := by
  intro evs
  induction evs with
  | nil =>
    intro s s' h hr
    unfold runLoop at hr
    rw [Except.ok.injEq] at hr
    rw [← hr]
    exact finalizeLogger_req s h
  | cons ev rest ih =>
    intro s s' h hr
    unfold runLoop at hr
    cases hp : processEvent s ev with
    | error msg => rw [hp] at hr; cases hr
    | ok s1 =>
      rw [hp] at hr
      exact ih s1 s' (processEvent_req h hp) hr

theorem loadExistingLog_dedupInv (bs : Nat) (content : String) :
    DedupInv (parsedSeqs content) (loadExistingLog bs content) := by
  obtain ⟨hseen, _, _, hbuf, hlog, _, _⟩ := loadExistingLog_spec bs content
  have hall : allSeqs (loadExistingLog bs content) = [] := by
    unfold allSeqs logSeqs bufSeqs
    rw [hbuf, hlog]
    rfl
  refine ⟨?_, ?_, ?_, ?_⟩
  · rw [hall]; exact List.nodup_nil
  · intro q hq; rw [hall] at hq; cases hq
  · intro q hq; exact (hseen q).mpr hq
  · intro q hq; rw [hall] at hq; cases hq

/-! ### The claims -/

/-- Claim C1: the spec says the receive loop never raises a fatal error and
`run()` always returns a `LoggerStats` value.  The code does not: with the
default `buffer_size` of 30, delivering a single intact packet leaves the
buffer non-empty and below capacity, so the `_should_flush` call evaluates
the never-assigned attribute `expected_seq` (line 125) and the resulting
`AttributeError` propagates out of `run` (which catches only `SystemExit`).
The claim describes the clear intent; the attribute name is a slip in the
code. -/
theorem run_raises_instead_of_stats :
    runEventLogger 30 [(mkPacket 0, true)] = Except.error attrErrorMsg := by
  rfl

/-- Claim C2: the spec says the flush decision maintains a gap-wait counter
whenever the buffer is below `buffer_size`.  In the code, whenever the
buffer is non-empty and below `buffer_size`, `_should_flush` instead raises
`AttributeError` (line 125 reads `self.expected_seq`, never assigned), so
the increment/reset logic is unreachable except when the buffer is empty.
The claim matches the clear intent; the code has the typo. -/
theorem shouldFlush_raises_below_capacity (s : LoggerState)
    (h1 : s.buffer ≠ []) (h2 : s.buffer.length < s.buffer_size) :
    shouldFlush s = Except.error attrErrorMsg := by
  unfold shouldFlush
  rw [if_neg (by omega)]
  cases hb : s.buffer with
  | nil => exact absurd hb h1
  | cons p rest => rfl

theorem shouldFlush_raises_below_capacity_witness :
    (handlePacket (initState 30) (mkPacket 0) true).buffer ≠ [] ∧
    (handlePacket (initState 30) (mkPacket 0) true).buffer.length <
      (handlePacket (initState 30) (mkPacket 0) true).buffer_size ∧
    shouldFlush (handlePacket (initState 30) (mkPacket 0) true) =
      Except.error attrErrorMsg :=
  ⟨by decide, by decide,
    shouldFlush_raises_below_capacity _ (by decide) (by decide)⟩

/-- Claim C3: `_finalize` runs one standard flush cycle, then drains every
remaining buffered packet in ascending sequence order with status `LATE`
(or `RETRANSMIT` when the sequence is in the retransmitted set), leaves the
buffer empty, sets the `final_buffer_size` statistic to zero, and as a
consequence the written log afterwards holds exactly the previously written
sequences plus every previously buffered sequence (no silent drop). -/
theorem finalize_drains_all (s : LoggerState) :
    (finalizeLogger s).buffer = [] ∧
    (finalizeLogger s).stats.final_buffer_size = 0 ∧
    (finalizeLogger s).log =
      (flushBuffer s).log ++
        (sortBuffer (flushBuffer s).buffer).map (fun p =>
          { sequence := p.sequence, timestamp := p.timestamp, payload := p.payload,
            status := evictStatus (flushBuffer s).retransmitted_seqs p }) ∧
    (logSeqs (finalizeLogger s)).Perm (logSeqs s ++ bufSeqs s) := by
  have hbuf : (finalizeLogger s).buffer = [] := by
    unfold finalizeLogger
    dsimp only
    exact evictList_buffer _ _ rfl
  have hlog : (finalizeLogger s).log =
      (flushBuffer s).log ++
        (sortBuffer (flushBuffer s).buffer).map (fun p =>
          { sequence := p.sequence, timestamp := p.timestamp, payload := p.payload,
            status := evictStatus (flushBuffer s).retransmitted_seqs p }) := by
    unfold finalizeLogger
    dsimp only
    exact evictList_log _ _ rfl
  refine ⟨hbuf, rfl, hlog, ?_⟩
  have hls : logSeqs (finalizeLogger s) = allSeqs (finalizeLogger s) := by
    unfold allSeqs bufSeqs
    rw [hbuf]
    simp
  rw [hls]
  exact finalizeLogger_perm s

/-- Claim C4: for every sequence `s`, the log contains at most one line with
that sequence across a run, and across a restart given recovery: starting
from a recovered state whose pre-existing log parsed to pairwise-distinct
sequences, the recovered sequences plus the sequences newly written by the
run are pairwise distinct; and a packet whose sequence is already in the
seen set is discarded with only the duplicate counter incremented. -/
theorem dedup_across_run_and_recovery (bs : Nat) (content : String)
    (events : List (Packet × Bool)) (s' : LoggerState)
    (hnodup : (parsedSeqs content).Nodup)
    (hrun : runLoop (loadExistingLog bs content) events = Except.ok s') :
    (parsedSeqs content ++ logSeqs s').Nodup ∧
    (∀ (t : LoggerState) (p : Packet), p.sequence ∈ t.seen_sequences →
      handlePacket t p true =
        { t with stats := { t.stats with
            duplicates_discarded := t.stats.duplicates_discarded + 1 } }) := by
  have hinv : DedupInv (parsedSeqs content) s' :=
    runLoop_dedup events _ s' (loadExistingLog_dedupInv bs content) hrun
  obtain ⟨h1, h2, h3, h4⟩ := hinv
  constructor
  · rw [List.nodup_append]
    refine ⟨hnodup, ?_, ?_⟩
    · unfold allSeqs at h1
      exact h1.of_append_left
    · intro a ha hb
      exact h4 a (List.mem_append_left _ hb) ha
  · intro t p hseen
    unfold handlePacket
    rw [if_pos rfl, if_pos hseen]

theorem dedup_across_run_and_recovery_witness :
    (parsedSeqs "").Nodup ∧
    (parsedSeqs "" ++ logSeqs (finalizeLogger (flushBuffer (handlePacket
      (bumpReceived (loadExistingLog 0 "")) (mkPacket 0) true)))).Nodup :=
  ⟨by decide,
    (dedup_across_run_and_recovery 0 "" [(mkPacket 0, true)]
      (finalizeLogger (flushBuffer (handlePacket
        (bumpReceived (loadExistingLog 0 "")) (mkPacket 0) true)))
      (by decide) rfl).1⟩

/-- Claim C5, counterexample: the claim says a written line carries `LATE`
iff its sequence is not exactly one greater than the previously written
sequence (`RETRANSMIT` aside).  In the run below (`buffer_size = 0`,
intact packets 5 then 6), the bound-enforcement eviction proposes `LATE`
for packet 6 and `_write_packet` keeps a `LATE` proposal even when the
write is in strict physical order, so the log ends with the line for
sequence 6 tagged `LATE` although 6 is exactly one greater than the
previously written sequence 5. -/
theorem late_tag_in_order_counterexample :
    (runLoop (initState 0) [(mkPacket 5, true), (mkPacket 6, true)]).map
        (fun s => s.log.map (fun e => (e.sequence, e.status)))
      = Except.ok [(5, Status.LATE), (6, Status.LATE)] := by
  rfl

/-- Claim C5 as amended: `_write_packet` appends one line whose status is
the proposed tag resolved against physical order; an `OK` proposal is
upgraded to `LATE` exactly when the write breaks strict physical order, a
`RETRANSMIT` proposal is always kept, and the written tag is `LATE` iff the
proposal was `LATE` (bound-enforcement eviction or finalize drain) or an
out-of-order `OK` — a `LATE`-proposed line keeps the tag even when written
in order. -/
theorem write_status_resolution (s : LoggerState) (p : Packet) (st : Status) :
    (writePacket s p st).log =
      s.log ++ [{ sequence := p.sequence, timestamp := p.timestamp, payload := p.payload,
                  status := resolveStatus st (outOfOrder s p.sequence) }] ∧
    (resolveStatus st (outOfOrder s p.sequence) = Status.LATE ↔
      (st = Status.LATE ∨ (st = Status.OK ∧ outOfOrder s p.sequence = true))) ∧
    resolveStatus Status.RETRANSMIT (outOfOrder s p.sequence) = Status.RETRANSMIT := by
  refine ⟨writePacket_log s p st, ?_, resolveStatus_retransmit _⟩
  unfold resolveStatus
  cases st <;> cases hooo : outOfOrder s p.sequence <;> decide

/-- Claim C6: `request_retransmit(s)` is invoked at most once while `s`
remains in the pending-retransmit set; since the engine never removes a
sequence from that set, every completed run issues at most one request per
sequence, and the requested sequences are exactly the pending ones. -/
theorem retransmit_requested_at_most_once (bs : Nat)
    (events : List (Packet × Bool)) (s' : LoggerState)
    (hrun : runLoop (initState bs) events = Except.ok s') :
    (∀ q : Int, s'.requests.count q ≤ 1) ∧
    (∀ q : Int, q ∈ s'.requests ↔ q ∈ s'.pending_retransmits) := by
  have hinv : ReqInv s' := runLoop_req events _ s' ⟨List.nodup_nil, fun _ => Iff.rfl⟩ hrun
  exact ⟨fun q => List.nodup_iff_count_le_one.mp hinv.1 q, hinv.2⟩

theorem retransmit_requested_at_most_once_witness :
    (finalizeLogger (flushBuffer (handlePacket (bumpReceived (initState 0))
      (mkPacket 5) true))).requests.count 0 ≤ 1 :=
  (retransmit_requested_at_most_once 0 [(mkPacket 5, true)]
    (finalizeLogger (flushBuffer (handlePacket (bumpReceived (initState 0))
      (mkPacket 5) true))) rfl).1 0

/-- Claim C7, counterexample: the claim says recovery skips every line that
is not exactly four comma-separated fields.  The code splits with
`line.split(",", 3)`, which folds everything after the third comma into the
fourth field, so the five-field line below (shown to have five
comma-separated fields) is accepted: its sequence 1 lands in the seen set,
becomes `last_written_seq`, and sets `expected_sequence` to 2, where the
claim requires the line to be skipped and the state left empty. -/
theorem recovery_five_field_line_counterexample :
    (splitOnChar ',' "1,a,b,c,d".toList).length = 5 ∧
    (loadExistingLog 30 "1,a,b,c,d").seen_sequences = [1] ∧
    (loadExistingLog 30 "1,a,b,c,d").last_written_seq = 1 ∧
    (loadExistingLog 30 "1,a,b,c,d").expected_sequence = 2 := by
  decide

/-- Claim C7 as amended: on construction, recovery parses each line of the
stripped content with `split(",", 3)`: a line is skipped exactly when that
split yields fewer than four fields (fewer than three commas) or its first
field does not parse as an integer — a line with more than three commas is
not skipped, its text after the third comma counting as one field.  Every
parsed sequence enters the seen set, `last_written_seq` is the sequence of
the last successfully parsed line (the sentinel -1 when there is none,
including when the file is empty or absent), and `expected_sequence` is
`last_written_seq + 1`; buffer, in-run log, pending set and request history
start empty. -/
theorem recovery_characterization (bs : Nat) (content : String) :
    (∀ q : Int, q ∈ (loadExistingLog bs content).seen_sequences ↔ q ∈ parsedSeqs content) ∧
    (loadExistingLog bs content).last_written_seq = (parsedSeqs content).getLastD (-1) ∧
    (loadExistingLog bs content).expected_sequence =
      (loadExistingLog bs content).last_written_seq + 1 ∧
    (loadExistingLog bs content).buffer = [] ∧
    (loadExistingLog bs content).log = [] ∧
    (loadExistingLog bs content).pending_retransmits = [] ∧
    (loadExistingLog bs content).requests = [] :=
  loadExistingLog_spec bs content

/-- Claim C8, counterexample: the claim says ingestion never buffers a
packet whose sequence is below the current cursor.  With `buffer_size = 0`,
processing intact packet 1 gap-skips sequence 0 and leaves
`expected_sequence = 2`; the later first arrival of intact packet 0 passes
the seen-set check (sequence 0 was skipped, never seen) and is appended to
the buffer although its sequence 0 is below the cursor 2. -/
theorem buffer_below_cursor_counterexample :
    processEvent (initState 0) (mkPacket 1, true) =
      Except.ok (flushBuffer (handlePacket (bumpReceived (initState 0)) (mkPacket 1) true)) ∧
    (handlePacket (bumpReceived (flushBuffer (handlePacket (bumpReceived (initState 0))
        (mkPacket 1) true))) (mkPacket 0) true).buffer.map Packet.sequence = [0] ∧
    (handlePacket (bumpReceived (flushBuffer (handlePacket (bumpReceived (initState 0))
        (mkPacket 1) true))) (mkPacket 0) true).expected_sequence = 2 :=
  ⟨rfl, by decide, by decide⟩

/-- Claim C8 as amended: `_handle_packet` admits a packet to the reorder
buffer exactly when its checksum verifies and its sequence is not in the
seen set; admission never compares the sequence with `expected_sequence`,
so a sequence that was skipped as a gap (hence never seen) can be admitted
below the cursor. -/
theorem admission_ignores_cursor (s : LoggerState) (p : Packet) (ok : Bool) :
    (handlePacket s p ok).buffer =
      if ok = true ∧ p.sequence ∉ s.seen_sequences then s.buffer ++ [p]
      else s.buffer := by
  cases ok with
  | false =>
    unfold handlePacket
    rw [if_neg Bool.false_ne_true]
    dsimp only
    conv_rhs => rw [if_neg (fun hc : false = true ∧ p.sequence ∉ s.seen_sequences =>
      Bool.false_ne_true hc.1)]
    split <;> rfl
  | true =>
    unfold handlePacket
    rw [if_pos rfl]
    by_cases hseen : p.sequence ∈ s.seen_sequences
    · rw [if_pos hseen, if_neg (by simp [hseen])]
    · rw [if_neg hseen, if_pos (by simp [hseen])]
      dsimp only
      split <;> rfl

/-- Claim C9: after the contiguous drain of a flush of a non-empty buffer,
no buffered packet matches the new cursor (also when the drain emptied the
buffer), so the missing-head step fires: when the post-drain
`expected_sequence` is not already pending, the flush issues exactly one
retransmit request for it and records it in the pending and retransmitted
sets; in every case the post-drain cursor ends the flush in the
retransmitted set (pending being contained in retransmitted).
Consequently a first intact arrival of that sequence is counted as a
fulfilled retransmit and buffered, and both drain and eviction propose
`RETRANSMIT` for it, a proposal `_write_packet` never changes. -/
theorem flush_requests_missing_head (s : LoggerState) (hne : s.buffer ≠ [])
    (hpr : ∀ q ∈ s.pending_retransmits, q ∈ s.retransmitted_seqs) :
    ((drainLoop (preFlush s)).expected_sequence ∈ (flushBuffer s).retransmitted_seqs) ∧
    ((drainLoop (preFlush s)).expected_sequence ∉ s.pending_retransmits →
      (flushBuffer s).requests = s.requests ++ [(drainLoop (preFlush s)).expected_sequence] ∧
      (drainLoop (preFlush s)).expected_sequence ∈ (flushBuffer s).pending_retransmits) ∧
    (∀ (t : LoggerState) (p : Packet), p.sequence ∉ t.seen_sequences →
      p.sequence ∈ t.retransmitted_seqs →
      (handlePacket t p true).stats.retransmits_received =
        t.stats.retransmits_received + 1 ∧
      (handlePacket t p true).buffer = t.buffer ++ [p]) ∧
    (∀ (r : List Int) (p : Packet), p.sequence ∈ r →
      drainStatus r p = Status.RETRANSMIT ∧ evictStatus r p = Status.RETRANSMIT ∧
      ∀ b : Bool, resolveStatus (drainStatus r p) b = Status.RETRANSMIT) := by
  have hd := drainGo_fields (preFlush s).buffer.length (preFlush s)
  set sd := drainLoop (preFlush s) with hsd
  set s3 : LoggerState := { sd with buffer := sortBuffer sd.buffer } with hs3
  have hdecomp : flushBuffer s = boundLoop (gapSkipLoop (missingHead s3)) :=
    flushBuffer_decomp s hne
  have hpost : ∀ p ∈ sd.buffer, p.sequence ≠ sd.expected_sequence :=
    drainGo_post (preFlush s).buffer.length (preFlush s) (Nat.le_refl _)
  have hany : s3.buffer.any (fun q => q.sequence == s3.expected_sequence) = false := by
    rw [Bool.eq_false_iff]
    intro hcontra
    rw [List.any_eq_true] at hcontra
    obtain ⟨q, hq, hq2⟩ := hcontra
    rw [beq_iff_eq] at hq2
    exact hpost q (mem_sortBuffer.mp hq) hq2
  have h3p : s3.pending_retransmits = s.pending_retransmits := hd.2.1
  have h3r : s3.requests = s.requests := hd.2.2.2.1
  have h3retr : s3.retransmitted_seqs = s.retransmitted_seqs := hd.2.2.1
  have hg := gapSkipGo_fields (missingHead s3).gap_skip_limit (missingHead s3)
  have hbo := boundGo_fields (gapSkipLoop (missingHead s3)).buffer.length
    (gapSkipLoop (missingHead s3))
  have hfr : (flushBuffer s).requests = (missingHead s3).requests := by
    rw [hdecomp]
    unfold boundLoop gapSkipLoop
    exact hbo.2.2.2.1.trans hg.2.2.2.1
  have hfp : (flushBuffer s).pending_retransmits = (missingHead s3).pending_retransmits := by
    rw [hdecomp]
    unfold boundLoop gapSkipLoop
    exact hbo.2.1.trans hg.2.1
  have hfretr : (flushBuffer s).retransmitted_seqs = (missingHead s3).retransmitted_seqs := by
    rw [hdecomp]
    unfold boundLoop gapSkipLoop
    exact hbo.2.2.1.trans hg.2.2.1
  refine ⟨?_, ?_, ?_, ?_⟩
  · by_cases hpend : sd.expected_sequence ∈ s.pending_retransmits
    · have hm : missingHead s3 = s3 := (missingHead_cases s3).2.2 (h3p ▸ hpend)
      rw [hfretr, hm, h3retr]
      exact hpr _ hpend
    · have hm := (missingHead_cases s3).1 hany (h3p ▸ hpend)
      rw [hfretr, hm]
      exact self_mem_addSeq
  · intro hpend
    have hm := (missingHead_cases s3).1 hany (h3p ▸ hpend)
    constructor
    · rw [hfr, hm]
      dsimp only
      rw [h3r]
    · rw [hfp, hm]
      dsimp only
      exact self_mem_addSeq
  · intro t p hseen hretr
    unfold handlePacket
    rw [if_pos rfl, if_neg hseen]
    dsimp only
    rw [if_pos hretr]
    exact ⟨rfl, rfl⟩
  · intro r p hmem
    refine ⟨drainStatus_of_retr hmem, evictStatus_of_retr hmem, ?_⟩
    intro b
    rw [drainStatus_of_retr hmem]
    exact resolveStatus_retransmit b

theorem flush_requests_missing_head_witness :
    (handlePacket (initState 4) (mkPacket 3) true).buffer ≠ [] ∧
    (drainLoop (preFlush (handlePacket (initState 4) (mkPacket 3) true))).expected_sequence ∈
      (flushBuffer (handlePacket (initState 4) (mkPacket 3) true)).retransmitted_seqs ∧
    (flushBuffer (handlePacket (initState 4) (mkPacket 3) true)).requests =
      (handlePacket (initState 4) (mkPacket 3) true).requests ++
        [(drainLoop (preFlush (handlePacket (initState 4) (mkPacket 3) true))).expected_sequence] :=
  ⟨by decide,
    (flush_requests_missing_head (handlePacket (initState 4) (mkPacket 3) true)
      (by decide) (by decide)).1,
    ((flush_requests_missing_head (handlePacket (initState 4) (mkPacket 3) true)
      (by decide) (by decide)).2.1 (by decide)).1⟩

/-- Claim C10: while `last_written_seq` holds the sentinel -1 (empty log),
`_write_packet` treats the write as in order regardless of the sequence: an
`OK` proposal is not upgraded to `LATE`, and a `RETRANSMIT`-tagged first
write leaves the inversion counter unchanged. -/
theorem first_write_in_order (s : LoggerState) (p : Packet)
    (h : s.last_written_seq = -1) :
    (writePacket s p Status.OK).log =
      s.log ++ [{ sequence := p.sequence, timestamp := p.timestamp, payload := p.payload,
                  status := Status.OK }] ∧
    (writePacket s p Status.RETRANSMIT).stats.inversions = s.stats.inversions := by
  have hooo : outOfOrder s p.sequence = false := by
    unfold outOfOrder
    rw [h]
    simp
  constructor
  · rw [writePacket_log, hooo]
    rfl
  · show s.stats.inversions +
        inversionDelta (resolveStatus Status.RETRANSMIT (outOfOrder s p.sequence))
          (outOfOrder s p.sequence) = s.stats.inversions
    rw [hooo]
    rfl

theorem first_write_in_order_witness :
    (initState 5).last_written_seq = -1 ∧
    (writePacket (initState 5) (mkPacket 7) Status.OK).log =
      [{ sequence := 7, timestamp := "", payload := "", status := Status.OK }] ∧
    (writePacket (initState 5) (mkPacket 7) Status.RETRANSMIT).stats.inversions = 0 :=
  ⟨rfl, (first_write_in_order (initState 5) (mkPacket 7) rfl).1,
    (first_write_in_order (initState 5) (mkPacket 7) rfl).2⟩

end EventLog
